import Mathlib

/-!
Shallow embedding of the resumable chunked ETL load engine
(`etl_processor.py`, `main_etl.py`) and proofs of the specification claims.

Conventions of the embedding:
* A CSV cell is a `String` before parsing and an `Option String` after
  parsing (`none` is the missing-value sentinel produced by `na_values`).
* Numeric columns handled by the business transforms (scores, dates,
  course lengths) are modelled as `Option ℚ` (pandas floats restricted to
  the exact decimal values occurring in the data).
* The database is a `DBState`: per-table row lists plus the per-table
  ETL-log checkpoint.  `db_utils` is not part of the sources, so the
  checkpoint-store operations are modelled from the spec (§4.1), as noted
  on each such definition.
* Failures (I/O, transform, database errors) are injected through an
  oracle `failAt : String → Nat → Option BatchFailure` giving, per table
  and batch index, whether and where processing of that batch raises.
* In addition to the final state, the orchestrators return the list of
  observable `Event`s (transform invocations and committed batches), in
  order, so that claims about skipping, ordering and containment can be
  stated about the trace.
-/

namespace ETL

/-- A raw CSV record: the list of its fields as literal strings. -/
abbrev RawRow : Type := List String

/-- A parsed record: each field either a value or the missing-value
sentinel (`none`). -/
abbrev Row : Type := List (Option String)

/-- The literal tokens interpreted as missing values during parsing
(`missing_values = ["?", ""]` in `process_csv_to_db`). -/
def missing_values : List String := ["?", ""]

/-- Parsing of one field under `na_values=missing_values`: a token in the
missing-value list becomes the sentinel `none`, anything else is kept. -/
def parseCell (s : String) : Option String :=
  if s ∈ missing_values then none else some s

/-- Parsing of one record: every field goes through `parseCell`. -/
def parseRow (r : RawRow) : Row :=
  r.map parseCell

/-- Fuel-driven worker of `chunksOf` (structural recursion on the fuel,
so that concrete runs evaluate inside the kernel). -/
def chunksOfFuel (n : Nat) : Nat → List α → List (List α)
  | 0, _ => []
  | _ + 1, [] => []
  | fuel + 1, x :: xs =>
      (x :: xs.take (n - 1)) :: chunksOfFuel n fuel (xs.drop (n - 1))

/-- `pd.read_csv(..., chunksize=n)`: split the record list into
consecutive chunks of size `n` (the last one possibly shorter). -/
def chunksOf (n : Nat) (l : List α) : List (List α) :=
  chunksOfFuel n l.length l

/-- The database state: the rows stored in each destination table, and
the ETL-log checkpoint of each table.  `log t = 0` models the absence of
a checkpoint record for `t`. -/
@[ext]
structure DBState where
  rows : String → List Row
  log : String → Nat

/-- Modelled from the spec: `db_utils.get_last_processed_chunk(table,
engine)` (§4.1 `lastCommitted`), returning 0 when no checkpoint exists
for the table. -/
def get_last_processed_chunk (tableName : String) (st : DBState) : Nat :=
  st.log tableName

/-- One SQL statement executed inside a transaction: either the
`to_sql(..., if_exists="append")` data write, or the
`db_utils.update_etl_log` checkpoint update (the latter modelled from the
spec, §4.1 `recordCommit`). -/
inductive TxnOp
  | appendRows (t : String) (rs : List Row)
  | setLog (t : String) (i : Nat)

/-- Effect of one statement on the database state. -/
def applyOp (st : DBState) : TxnOp → DBState
  | .appendRows t rs =>
      { st with rows := fun u => if u = t then st.rows u ++ rs else st.rows u }
  | .setLog t i =>
      { st with log := fun u => if u = t then i else st.log u }

/-- Run the statements of a transaction in order on a scratch state.
`failIdx = some k` means the `k`-th statement raises; the result is then
`none` (the transaction did not reach its end). -/
def runTxnOps (failIdx : Option Nat) : Nat → DBState → List TxnOp → Option DBState
  | _, st, [] => some st
  | k, st, op :: ops =>
      if failIdx = some k then none
      else runTxnOps failIdx (k + 1) (applyOp st op) ops

/-- `with engine.begin() as connection:` – run the statements as one
atomic unit.  On success the final scratch state is installed and the
flag is `true`; on a failure the transaction is rolled back, the
original state stands, and the flag is `false` (the exception
propagates to the caller). -/
def runTxn (st : DBState) (ops : List TxnOp) (failIdx : Option Nat) :
    DBState × Bool :=
  match runTxnOps failIdx 0 st ops with
  | some st' => (st', true)
  | none => (st, false)

/-- The statements of the atomic commit unit of `process_csv_to_db`
(lines 207–211): append the transformed batch, then record the
checkpoint, in the same transaction. -/
def commitOps (tableName : String) (i : Nat) (batch : List Row) : List TxnOp :=
  [.appendRows tableName batch, .setLog tableName i]

/-- The atomic batch commit: data write plus checkpoint update in one
transaction. -/
def commitBatch (st : DBState) (tableName : String) (i : Nat)
    (batch : List Row) (failIdx : Option Nat) : DBState × Bool :=
  runTxn st (commitOps tableName i batch) failIdx

/-- Where the processing of one batch raises, when it does:
while the reader produces the chunk, inside the transform, or at the
`opIdx`-th statement of the commit transaction. -/
inductive BatchFailure
  | duringRead
  | duringTransform
  | duringWrite (opIdx : Nat)
deriving DecidableEq

/-- A `BatchFailure` that actually makes the batch fail: a read or
transform failure always does; a write failure does only when its
statement index falls inside the two-statement commit transaction. -/
def BatchFailure.effective : BatchFailure → Prop
  | .duringWrite k => k < 2
  | _ => True

/-- A failure oracle: per table and 1-based batch index, whether and
where the processing of that batch raises. -/
def FailOracle : Type := String → Nat → Option BatchFailure

/-- The oracle of a run during which nothing fails. -/
def noFail : FailOracle := fun _ _ => none

/-- Observable events of a run: the transform being invoked on a batch,
and a batch being durably committed. -/
inductive Event
  | transformed (t : String) (i : Nat)
  | committed (t : String) (i : Nat)
deriving DecidableEq

/-- The table an event belongs to. -/
def Event.table : Event → String
  | .transformed t _ => t
  | .committed t _ => t

/-- The batch loop of `process_csv_to_db` (lines 192–211): enumerate the
chunks from index `i`; a chunk whose index is ≤ `startChunk` is skipped
with no transform or commit; otherwise the chunk is transformed and
committed atomically.  Any raised exception (read, transform, or write)
aborts the remaining batches: the `try/except` of the caller catches it,
so the function returns the state reached so far. -/
def processBatches (failAt : FailOracle) (tableName : String)
    (transform : List Row → List Row) (startChunk : Nat) :
    Nat → DBState → List (List Row) → DBState × List Event
  | _, st, [] => (st, [])
  | i, st, b :: bs =>
      if failAt tableName i = some .duringRead then (st, [])
      else if i ≤ startChunk then
        processBatches failAt tableName transform startChunk (i + 1) st bs
      else if failAt tableName i = some .duringTransform then (st, [])
      else
        let failIdx : Option Nat :=
          match failAt tableName i with
          | some (.duringWrite k) => some k
          | _ => none
        let r := commitBatch st tableName i (transform b) failIdx
        if r.2 then
          let rest := processBatches failAt tableName transform startChunk (i + 1) r.1 bs
          (rest.1, .transformed tableName i :: .committed tableName i :: rest.2)
        else (r.1, [.transformed tableName i])

/-- The files of a data-source directory: file name paired with the raw
records of the CSV body (the header is implicit in the column
positions). -/
abbrev Files : Type := List (String × List RawRow)

/-- `os.path.exists` / reading a file of the source. -/
def lookupFile (files : Files) (name : String) : Option (List RawRow) :=
  files.lookup name

/-- The chunked source reader: parse every record with `na_values`
normalization, then cut the parsed records into chunks of `batch_size`. -/
def readCsvBatches (batch_size : Nat) (raw : List RawRow) : List (List Row) :=
  chunksOf batch_size (raw.map parseRow)

/-- `process_csv_to_db`: resumable chunked load of one CSV file into one
destination table.  If the file does not exist the function returns at
once; otherwise it looks up the checkpoint, reads the file in chunks
with `na_values` parsing, and runs the batch loop. -/
def process_csv_to_db (failAt : FailOracle) (files : Files)
    (filepath : String) (tableName : String) (st : DBState)
    (batch_size : Nat) (transform_func : List Row → List Row) :
    DBState × List Event :=
  match lookupFile files filepath with
  | none => (st, [])
  | some raw =>
      let start_chunk := get_last_processed_chunk tableName st
      processBatches failAt tableName transform_func start_chunk 1 st
        (readCsvBatches batch_size raw)

/-- The batches the reader delivers for a table of a source (empty when
the table's file is absent). -/
def tableBatches (files : Files) (batch_size : Nat) (t : String) :
    List (List Row) :=
  readCsvBatches batch_size ((lookupFile files (t ++ ".csv")).getD [])

/-- The destination data tables cleared by `clear_data_tables`. -/
def data_tables : List String :=
  ["courses", "vle", "studentInfo", "studentRegistration", "assessments",
   "studentAssessment", "studentVle"]

/-- `clear_data_tables`: delete all rows of every data table, then clear
the ETL logs (`db_utils.clear_etl_logs`, modelled from the spec §4.1
`clearAll`: every checkpoint record is removed, so every table reads
back checkpoint 0). -/
def clear_data_tables (st : DBState) : DBState :=
  { rows := fun t => if t ∈ data_tables then [] else st.rows t,
    log := fun _ => 0 }

/-- A data source as seen by the orchestrator: whether the directory
exists, and the CSV files it contains. -/
structure FileSystem where
  dirExists : Bool
  files : Files

/-- `get_data_source_summary`: the summary is invalid exactly when the
source directory does not exist (per-file read errors are reported but
do not clear the `is_valid` flag). -/
def summary_is_valid (fs : FileSystem) : Bool :=
  fs.dirExists

/-- The essential files checked by `main_etl.validate_data_source`. -/
def essential_files : List String := ["courses.csv", "studentInfo.csv"]

/-- `main_etl.validate_data_source`: the directory must exist and
contain every essential file. -/
def validate_data_source (fs : FileSystem) : Bool :=
  fs.dirExists && essential_files.all fun f => (lookupFile fs.files f).isSome

/-- The fixed table execution order of `run_full_etl` (lines 279–287),
chosen to respect foreign-key constraints. -/
def execution_order : List String :=
  ["courses", "vle", "studentInfo", "studentRegistration", "assessments",
   "studentAssessment", "studentVle"]

/-- Modelled from the spec: the foreign-key references between the OULAD
tables ("dependent/detail tables after the entities they reference",
§4.6).  The schema itself lives outside the given sources; each detail
table is mapped to the entity tables whose keys it references. -/
def fk_references : String → List String
  | "vle" => ["courses"]
  | "studentInfo" => ["courses"]
  | "studentRegistration" => ["studentInfo", "courses"]
  | "assessments" => ["courses"]
  | "studentAssessment" => ["assessments", "studentInfo"]
  | "studentVle" => ["vle", "studentInfo", "courses"]
  | _ => []

/-- The per-table loop at the end of `run_full_etl` (lines 306–313):
run `process_csv_to_db` on every available table in order, threading the
database state and concatenating the event traces. -/
def loadTables (failAt : FailOracle) (files : Files) (batch_size : Nat)
    (plan : String → List Row → List Row) :
    DBState → List String → DBState × List Event
  | st, [] => (st, [])
  | st, t :: ts =>
      let r := process_csv_to_db failAt files (t ++ ".csv") t st batch_size (plan t)
      let rest := loadTables failAt files batch_size plan r.1 ts
      (rest.1, r.2 ++ rest.2)

/-- `run_full_etl`: validate the source summary, optionally clear the
destination tables, set up the ETL-log table, preload `courses.csv`
(fatal if absent), filter the execution order down to the tables whose
source file is present, and load each surviving table in order.  The
execution plan (table ↦ transformation) is a parameter: the concrete
plan of the source maps five tables to `transform_generic` and the two
assessment tables to the business transforms modelled below; every claim
proved about the orchestrator holds for any plan. -/
def run_full_etl (failAt : FailOracle) (fs : FileSystem) (st : DBState)
    (batch_size : Nat) (clear_existing_data : Bool)
    (plan : String → List Row → List Row) : DBState × List Event :=
  if ¬ summary_is_valid fs then (st, [])
  else
    let st1 := if clear_existing_data then clear_data_tables st else st
    match lookupFile fs.files "courses.csv" with
    | none => (st1, [])
    | some _ =>
        let available_tables :=
          execution_order.filter fun t => (lookupFile fs.files (t ++ ".csv")).isSome
        loadTables failAt fs.files batch_size plan st1 available_tables

/-- The source loop of `run_multi_source_etl`: for the `i`-th source
(0-based) out of `total`, clear existing data exactly when `i = 0` or
`total = 1`, then run the full ETL on that source. -/
def runSources (failAt : FailOracle) (batch_size : Nat)
    (plan : String → List Row → List Row) (total : Nat) :
    DBState → Nat → List FileSystem → DBState × List Event
  | st, _, [] => (st, [])
  | st, i, s :: ss =>
      let clear_existing := i = 0 ∨ total = 1
      let r := run_full_etl failAt s st batch_size (decide clear_existing) plan
      let rest := runSources failAt batch_size plan total r.1 (i + 1) ss
      (rest.1, r.2 ++ rest.2)

/-- `run_multi_source_etl`: run the full ETL once per data source in
caller order. -/
def run_multi_source_etl (failAt : FailOracle) (data_sources : List FileSystem)
    (st : DBState) (batch_size : Nat)
    (plan : String → List Row → List Row) : DBState × List Event :=
  runSources failAt batch_size plan data_sources.length st 0 data_sources

/-- `transform_generic`: the identity transformation. -/
def transform_generic (df : List Row) : List Row := df

/-- One row of the preloaded `courses` reference table. -/
structure Course where
  code_module : Option String
  code_presentation : Option String
  module_presentation_length : Option ℚ
deriving DecidableEq

/-- One row of an `assessments` batch. -/
structure AssessmentRow where
  code_module : Option String
  code_presentation : Option String
  id_assessment : Option String
  assessment_type : Option String
  date : Option ℚ
  weight : Option ℚ
deriving DecidableEq

/-- Whether a course row matches an assessment row on the join key
`["code_module", "code_presentation"]`. -/
def courseKeyMatch (r : AssessmentRow) (c : Course) : Bool :=
  c.code_module = r.code_module ∧ c.code_presentation = r.code_presentation

/-- The left merge `pd.merge(df, courses_df, on=["code_module",
"code_presentation"], how="left")`, restricted to the one right-hand
column the transform reads: each row is paired with the
`module_presentation_length` of every matching course row, or with
`none` when no course matches. -/
def mergeCourses (courses_df : List Course) (r : AssessmentRow) :
    List (AssessmentRow × Option ℚ) :=
  match courses_df.filter (courseKeyMatch r) with
  | [] => [(r, none)]
  | ms => ms.map fun c => (r, c.module_presentation_length)

/-- `transform_assessments`: merge with the courses table, then where
`assessment_type == "Exam"` and `date` is null impute the date with the
matched course length, and project back to the original columns
(`df_merged[df.columns]`). -/
def transform_assessments (df : List AssessmentRow)
    (courses_df : List Course) : List AssessmentRow :=
  (df.flatMap (mergeCourses courses_df)).map fun p =>
    if p.1.assessment_type = some "Exam" ∧ p.1.date = none then
      { p.1 with date := p.2 }
    else p.1

/-- One row of a `studentAssessment` batch.  `assessment_result` is the
derived column; it is absent (`none`) in the rows coming from the
reader and assigned by the transform. -/
structure StudentAssessmentRow where
  id_assessment : Option String
  id_student : Option String
  date_submitted : Option ℚ
  is_banked : Option ℚ
  score : Option ℚ
  assessment_result : Option String
deriving DecidableEq

/-- `classify_score`: `None` for a missing score, `"Pass"` when the
score is ≥ 40, `"Fail"` otherwise. -/
def classify_score (score : Option ℚ) : Option String :=
  match score with
  | none => none
  | some s => if s ≥ 40 then some "Pass" else some "Fail"

/-- `transform_student_assessment`: set the `assessment_result` column
of every row to the classification of its score. -/
def transform_student_assessment (df : List StudentAssessmentRow) :
    List StudentAssessmentRow :=
  df.map fun r => { r with assessment_result := classify_score r.score }

/-- An empty database: no rows, no checkpoint records. -/
def st0 : DBState := ⟨fun _ => [], fun _ => 0⟩

/-- Raw records of a small `vle.csv` used by witnesses. -/
def rawW : List RawRow := [["546943"], ["546712"], ["546998"]]

/-- A database whose `vle` checkpoint already records one committed
batch. -/
def stW : DBState := ⟨fun _ => [], fun t => if t = "vle" then 1 else 0⟩

/-- A concrete `studentAssessment` row with score 39.9 and no derived
column yet. -/
def saRow0 : StudentAssessmentRow :=
  ⟨some "1752", some "11391", some 18, some 0, some (399 / 10), none⟩

/-- Witness raw records containing both missing-value tokens. -/
def rawNA : List RawRow := [["?", "", "11391"]]

/-- The `(code_module, code_presentation)` keys of the courses table are
pairwise distinct (they form its primary key). -/
def coursesNodupKeys (courses_df : List Course) : Prop :=
  courses_df.Pairwise fun c1 c2 =>
    ¬(c1.code_module = c2.code_module ∧
      c1.code_presentation = c2.code_presentation)

/-- A concrete course of length 269. -/
def courseW : Course := ⟨some "AAA", some "2014J", some 269⟩

/-- An exam assessment row with a missing date. -/
def examRowW : AssessmentRow :=
  ⟨some "AAA", some "2014J", some "14991", some "Exam", none, some 100⟩

/-- A non-exam assessment row with a missing date. -/
def tmaRowW : AssessmentRow :=
  ⟨some "AAA", some "2014J", some "14990", some "TMA", none, some 10⟩

/-- A database holding one committed `studentInfo` row and its
checkpoint. -/
def stC6 : DBState :=
  ⟨fun t => if t = "studentInfo" then [[some "11391", some "AAA"]] else [],
   fun t => if t = "studentInfo" then 1 else 0⟩

/-- A data source whose directory exists and contains `studentInfo.csv`
but not the anchor `courses.csv`. -/
def fsC6 : FileSystem := ⟨true, [("studentInfo.csv", [["11391", "AAA"]])]⟩

/-- A two-table source used by the C7 witness: one `courses` batch and
two `vle` batches at batch size 1. -/
def files7 : Files := [("courses.csv", [["AAA"]]), ("vle.csv", [["1"], ["2"]])]

/-- Failure oracle injecting a data-write failure at `vle`'s second
batch only. -/
def failC7 : FailOracle := fun u m =>
  if u = "vle" ∧ m = 2 then some (.duringWrite 0) else none

/-- A data source containing every table, one record each, used by the
C8 witness. -/
def fsAll : FileSystem :=
  ⟨true,
   [("courses.csv", [["AAA", "2014J", "269"]]),
    ("vle.csv", [["546943"]]),
    ("studentInfo.csv", [["11391"]]),
    ("studentRegistration.csv", [["11391", "AAA"]]),
    ("assessments.csv", [["14991"]]),
    ("studentAssessment.csv", [["14991", "11391"]]),
    ("studentVle.csv", [["11391", "546943"]])]⟩

/-- First data source of the multi-source run: one course, one
student. -/
def srcA : FileSystem :=
  ⟨true, [("courses.csv", [["AAA", "2013J", "268"]]),
          ("studentInfo.csv", [["11391", "AAA"]])]⟩

/-- Second data source of the multi-source run: a different course and
a different student. -/
def srcB : FileSystem :=
  ⟨true, [("courses.csv", [["BBB", "2014B", "241"]]),
          ("studentInfo.csv", [["99999", "BBB"]])]⟩

/-! ## Lemmas and claim theorems -/

/-- Any sufficient fuel computes `chunksOf`. -/
theorem chunksOfFuel_eq (n : Nat) :
    (l : List α) → (fuel : Nat) → l.length ≤ fuel →
    chunksOfFuel n fuel l = chunksOf n l
  | [], fuel, _ => by cases fuel <;> rfl
  | x :: xs, 0, h => by simp at h
  | x :: xs, fuel + 1, h => by
      show _ = chunksOfFuel n ((x :: xs).length) (x :: xs)
      simp only [chunksOfFuel, List.length_cons]
      rw [chunksOfFuel_eq n (xs.drop (n - 1)) fuel
          (by simp only [List.length_cons] at h; simp [List.length_drop]; omega),
        chunksOfFuel_eq n (xs.drop (n - 1)) xs.length
          (by simp [List.length_drop])]
termination_by l _ _ => l.length
decreasing_by all_goals simp [List.length_drop]; omega

/-- Unfolding lemma: a nonempty list yields its first chunk followed by
the chunks of the rest. -/
theorem chunksOf_cons (n : Nat) (x : α) (xs : List α) :
    chunksOf n (x :: xs) =
      (x :: xs.take (n - 1)) :: chunksOf n (xs.drop (n - 1)) := by
  show chunksOfFuel n (xs.length + 1) (x :: xs) = _
  simp only [chunksOfFuel]
  rw [chunksOfFuel_eq n (xs.drop (n - 1)) xs.length
    (by simp [List.length_drop])]

/-- A commit transaction with no failure installs exactly the appended
rows and the new checkpoint. -/
theorem commitBatch_none (st : DBState) (t : String) (i : Nat)
    (batch : List Row) :
    commitBatch st t i batch none =
      ({ rows := fun u => if u = t then st.rows u ++ batch else st.rows u,
         log := fun u => if u = t then i else st.log u }, true) := by
  simp [commitBatch, runTxn, runTxnOps, commitOps, applyOp]

/-- A commit transaction failing at one of its two statements rolls back
to the caller's state and reports the exception. -/
theorem commitBatch_fail (st : DBState) (t : String) (i : Nat)
    (batch : List Row) (k : Nat) (hk : k < 2) :
    commitBatch st t i batch (some k) = (st, false) := by
  interval_cases k <;> simp [commitBatch, runTxn, runTxnOps, commitOps, applyOp]

/-- Whatever the injected failure, a commit transaction either rolls
back completely or installs exactly its two statements. -/
theorem commitBatch_cases (st : DBState) (t : String) (i : Nat)
    (batch : List Row) (failIdx : Option Nat) :
    commitBatch st t i batch failIdx = (st, false) ∨
    commitBatch st t i batch failIdx =
      ({ rows := fun u => if u = t then st.rows u ++ batch else st.rows u,
         log := fun u => if u = t then i else st.log u }, true) := by
  match failIdx with
  | none => exact Or.inr (commitBatch_none st t i batch)
  | some 0 => exact Or.inl (commitBatch_fail st t i batch 0 (by omega))
  | some 1 => exact Or.inl (commitBatch_fail st t i batch 1 (by omega))
  | some (k + 2) =>
      refine Or.inr ?_
      simp [commitBatch, runTxn, runTxnOps, commitOps, applyOp]

/-- A commit transaction for table `t` never touches the rows or the
checkpoint of another table. -/
theorem commitBatch_frame (st : DBState) (t : String) (i : Nat)
    (batch : List Row) (failIdx : Option Nat) (u : String) (hu : u ≠ t) :
    (commitBatch st t i batch failIdx).1.rows u = st.rows u ∧
    (commitBatch st t i batch failIdx).1.log u = st.log u := by
  rcases commitBatch_cases st t i batch failIdx with h | h <;> rw [h] <;>
    simp [hu]

/-- Skipping phase of the batch loop: while the index stays at or below
the checkpoint (and reading does not fail), batches are dropped with no
effect and no event. -/
theorem processBatches_skip (failAt : FailOracle) (t : String)
    (tf : List Row → List Row) (k : Nat) :
    ∀ (m : Nat) (bs : List (List Row)) (i : Nat) (st : DBState),
    (∀ j, i ≤ j → j < i + m → failAt t j ≠ some .duringRead) →
    i + m ≤ k + 1 →
    processBatches failAt t tf k i st bs =
      processBatches failAt t tf k (i + m) st (bs.drop m) := by
  intro m
  induction m with
  | zero => intro bs i st _ _; simp
  | succ n ihn =>
      intro bs i st hread hle
      cases bs with
      | nil => simp [processBatches]
      | cons b bs' =>
          rw [processBatches]
          have h1 : ¬ failAt t i = some .duringRead :=
            hread i le_rfl (by omega)
          have h2 : i ≤ k := by omega
          rw [if_neg h1, if_pos h2]
          rw [ihn bs' (i + 1) st
            (fun j hj1 hj2 => hread j (by omega) (by omega)) (by omega)]
          have hidx : i + 1 + n = i + (n + 1) := by omega
          rw [hidx, List.drop_succ_cons]

/-- Streaming phase of the batch loop with no failure: starting past the
checkpoint, every remaining batch is transformed and committed in
order, the rows are appended to the destination table, and the
checkpoint ends at the index of the last batch. -/
theorem processBatches_run (failAt : FailOracle) (t : String)
    (tf : List Row → List Row) (k : Nat)
    (hnf : ∀ j, failAt t j = none) :
    ∀ (bs : List (List Row)) (i : Nat) (st : DBState), k < i →
    processBatches failAt t tf k i st bs =
      ({ rows := fun u =>
            if u = t then st.rows u ++ (bs.map tf).flatten else st.rows u,
         log := fun u =>
            if u = t ∧ bs ≠ [] then i + bs.length - 1 else st.log u },
       (List.range' i bs.length).flatMap fun j =>
         [.transformed t j, .committed t j]) := by
  intro bs
  induction bs with
  | nil =>
      intro i st hi
      simp only [processBatches]
      refine Prod.ext ?_ ?_
      · ext u
        · by_cases hu : u = t <;> simp [hu]
        · simp
      · simp
  | cons b bs ih =>
      intro i st hi
      have h2 : ¬ i ≤ k := by omega
      rw [processBatches, hnf i]
      simp only [h2, commitBatch_none, reduceCtorEq, if_false, ite_false,
        ite_true, if_true]
      rw [ih (i + 1) _ (by omega)]
      refine Prod.ext ?_ ?_
      · ext u
        · by_cases hu : u = t <;> simp [hu, List.append_assoc]
        · by_cases hu : u = t
          · cases bs with
            | nil => simp [hu]
            | cons c cs => simp [hu]; omega
          · simp [hu]
      · simp [List.range'_succ]

/-- The batch loop for table `t` never touches the rows or the
checkpoint of another table. -/
theorem processBatches_frame (failAt : FailOracle) (t : String)
    (tf : List Row → List Row) (k : Nat) :
    ∀ (bs : List (List Row)) (i : Nat) (st : DBState) (u : String), u ≠ t →
    (processBatches failAt t tf k i st bs).1.rows u = st.rows u ∧
    (processBatches failAt t tf k i st bs).1.log u = st.log u := by
  intro bs
  induction bs with
  | nil => intro i st u hu; simp [processBatches]
  | cons b bs ih =>
      intro i st u hu
      rw [processBatches]
      by_cases h1 : failAt t i = some .duringRead
      · simp [h1]
      by_cases h2 : i ≤ k
      · simpa [h1, h2] using ih (i + 1) st u hu
      by_cases h3 : failAt t i = some .duringTransform
      · simp [h1, h2, h3]
      simp only [h1, if_false, h2, h3, if_true]
      rcases commitBatch_cases st t i (tf b)
          (match failAt t i with
            | some (.duringWrite k') => some k'
            | _ => none) with hc | hc
      · rw [hc]; simp
      · rw [hc]
        simp only [ite_true]
        have hrest := ih (i + 1)
          ({ rows := fun v => if v = t then st.rows v ++ tf b else st.rows v,
             log := fun v => if v = t then i else st.log v } : DBState) u hu
        simpa [hu] using hrest

/-- Streaming phase of the batch loop hitting its first effective
failure at batch `j`: the batches strictly before `j` are committed, the
failing batch leaves no trace in the state, and the loop stops with the
checkpoint at `j - 1` (i.e. unchanged when nothing was committed). -/
theorem processBatches_fail (failAt : FailOracle) (t : String)
    (tf : List Row → List Row) (k : Nat) (j : Nat) (f : BatchFailure)
    (hfj : failAt t j = some f) (heff : f.effective)
    (hbefore : ∀ m, m < j → failAt t m = none) :
    ∀ (bs : List (List Row)) (i : Nat) (st : DBState),
    k < i → i ≤ j → j < i + bs.length →
    (processBatches failAt t tf k i st bs).1 =
      { rows := fun u =>
          if u = t then st.rows u ++ ((bs.take (j - i)).map tf).flatten
          else st.rows u,
        log := fun u => if u = t ∧ i < j then j - 1 else st.log u } := by
  intro bs
  induction bs with
  | nil =>
      intro i st h1 h2 h3
      simp at h3
      omega
  | cons b bs ih =>
      intro i st h1 h2 h3
      rcases Nat.lt_or_ge i j with hij | hij
      · -- batch i succeeds, the failure is further on
        have h2' : ¬ i ≤ k := by omega
        rw [processBatches, hbefore i hij]
        simp only [h2', commitBatch_none, reduceCtorEq, if_false, ite_false,
          ite_true, if_true]
        have := ih (i + 1)
          ({ rows := fun u => if u = t then st.rows u ++ tf b else st.rows u,
             log := fun u => if u = t then i else st.log u } : DBState)
          (by omega) (by omega) (by simp at h3 ⊢; omega)
        rw [this]
        ext u
        · by_cases hu : u = t
          · have htake : (b :: bs).take (j - i) = b :: bs.take (j - (i + 1)) := by
              have : j - i = (j - (i + 1)) + 1 := by omega
              rw [this, List.take_succ_cons]
            simp [hu, htake, List.append_assoc]
          · simp [hu]
        · by_cases hu : u = t
          · by_cases hij' : i + 1 < j
            · simp [hu, hij, hij']
            · have hje : j = i + 1 := by omega
              simp [hu, hij, hij', hje]
          · simp [hu]
      · -- i = j: this batch fails, nothing changes
        have hje : i = j := by omega
        have hfj' : failAt t i = some f := by rw [hje]; exact hfj
        have h2' : ¬ i ≤ k := by omega
        have htake : j - i = 0 := by omega
        have hij' : ¬ i < j := by omega
        rw [processBatches, hfj']
        cases f with
        | duringRead => simp [htake, hij']
        | duringTransform => simp [h2', htake, hij']
        | duringWrite k' =>
            have hk' : k' < 2 := heff
            simp only [h2', if_false, ite_false, reduceCtorEq, ite_true,
              if_true]
            rw [commitBatch_fail st t i (tf b) k' hk']
            simp [htake, hij']

/-- Full behaviour of `process_csv_to_db` on an existing file when no
failure is injected for its table: batches up to the stored checkpoint
are skipped, all later batches are transformed, appended and committed
in order, and the checkpoint ends at the total batch count. -/
theorem process_noFail_spec (failAt : FailOracle) (files : Files)
    (filepath : String) (t : String) (st : DBState) (batch_size : Nat)
    (tf : List Row → List Row) (raw : List RawRow)
    (hnf : ∀ j, failAt t j = none)
    (hfile : lookupFile files filepath = some raw)
    (hk : st.log t ≤ (readCsvBatches batch_size raw).length) :
    process_csv_to_db failAt files filepath t st batch_size tf =
      ({ rows := fun u =>
            if u = t then
              st.rows u ++
                (((readCsvBatches batch_size raw).drop (st.log t)).map tf).flatten
            else st.rows u,
         log := fun u =>
            if u = t then (readCsvBatches batch_size raw).length else st.log u },
       (List.range' (st.log t + 1)
          ((readCsvBatches batch_size raw).length - st.log t)).flatMap
         fun j => [.transformed t j, .committed t j]) := by
  have hb : process_csv_to_db failAt files filepath t st batch_size tf =
      processBatches failAt t tf (st.log t) 1 st (readCsvBatches batch_size raw) := by
    simp [process_csv_to_db, hfile, get_last_processed_chunk]
  rw [hb,
    processBatches_skip failAt t tf (st.log t) (st.log t)
      (readCsvBatches batch_size raw) 1 st
      (fun j _ _ => by simp [hnf j]) (by omega),
    processBatches_run failAt t tf (st.log t) hnf _ (1 + st.log t) st (by omega)]
  refine Prod.ext ?_ ?_
  · ext u
    · by_cases hu : u = t <;> simp [hu]
    · by_cases hu : u = t
      · by_cases hd : (readCsvBatches batch_size raw).drop (st.log t) = []
        · have hlen := congrArg List.length hd
          simp only [List.length_drop, List.length_nil] at hlen
          simp [hu, hd]
          omega
        · simp [hu, hd, List.length_drop]
          omega
      · simp [hu]
  · simp only [List.length_drop]
    rw [Nat.add_comm 1 (st.log t)]

/-- Full behaviour of `process_csv_to_db` on an existing file when its
table's first effective failure is injected at batch `j` past the
checkpoint: batches between the checkpoint and `j` are committed, the
loop stops, and the checkpoint ends at `j - 1`. -/
theorem process_fail_spec (failAt : FailOracle) (files : Files)
    (filepath : String) (t : String) (st : DBState) (batch_size : Nat)
    (tf : List Row → List Row) (raw : List RawRow) (j : Nat) (f : BatchFailure)
    (hfile : lookupFile files filepath = some raw)
    (hfj : failAt t j = some f) (heff : f.effective)
    (hbefore : ∀ m, m < j → failAt t m = none)
    (hklt : st.log t < j)
    (hjle : j ≤ (readCsvBatches batch_size raw).length) :
    (process_csv_to_db failAt files filepath t st batch_size tf).1 =
      { rows := fun u =>
          if u = t then
            st.rows u ++
              ((((readCsvBatches batch_size raw).drop (st.log t)).take
                  (j - 1 - st.log t)).map tf).flatten
          else st.rows u,
        log := fun u => if u = t then j - 1 else st.log u } := by
  have hb : process_csv_to_db failAt files filepath t st batch_size tf =
      processBatches failAt t tf (st.log t) 1 st (readCsvBatches batch_size raw) := by
    simp [process_csv_to_db, hfile, get_last_processed_chunk]
  rw [hb,
    processBatches_skip failAt t tf (st.log t) (st.log t)
      (readCsvBatches batch_size raw) 1 st
      (fun m hm1 hm2 => by simp [hbefore m (by omega)]) (by omega),
    processBatches_fail failAt t tf (st.log t) j f hfj heff hbefore _
      (1 + st.log t) st (by omega) (by omega)
      (by simp [List.length_drop]; omega)]
  ext u
  · by_cases hu : u = t
    · have : j - (1 + st.log t) = j - 1 - st.log t := by omega
      simp [hu, this]
    · simp [hu]
  · by_cases hu : u = t
    · by_cases hlt : 1 + st.log t < j
      · simp [hu, hlt]
      · have hje : j = 1 + st.log t := by omega
        simp [hu, hlt]
        omega
    · simp [hu]

/-- `process_csv_to_db` for table `t` never touches the rows or the
checkpoint of another table. -/
theorem process_frame_spec (failAt : FailOracle) (files : Files)
    (filepath : String) (t : String) (st : DBState) (batch_size : Nat)
    (tf : List Row → List Row) (u : String) (hu : u ≠ t) :
    (process_csv_to_db failAt files filepath t st batch_size tf).1.rows u =
      st.rows u ∧
    (process_csv_to_db failAt files filepath t st batch_size tf).1.log u =
      st.log u := by
  unfold process_csv_to_db
  cases lookupFile files filepath with
  | none => exact ⟨rfl, rfl⟩
  | some raw => exact processBatches_frame failAt t tf _ _ 1 st u hu

/-- Every event emitted by the batch loop for table `t` belongs to `t`. -/
theorem processBatches_events_table (failAt : FailOracle) (t : String)
    (tf : List Row → List Row) (k : Nat) :
    ∀ (bs : List (List Row)) (i : Nat) (st : DBState) (ev : Event),
    ev ∈ (processBatches failAt t tf k i st bs).2 → ev.table = t := by
  intro bs
  induction bs with
  | nil => intro i st ev hev; simp [processBatches] at hev
  | cons b bs ih =>
      intro i st ev hev
      rw [processBatches] at hev
      by_cases h1 : failAt t i = some .duringRead
      · simp [h1] at hev
      by_cases h2 : i ≤ k
      · rw [if_neg h1, if_pos h2] at hev
        exact ih (i + 1) st ev hev
      by_cases h3 : failAt t i = some .duringTransform
      · simp [h1, h2, h3] at hev
      rw [if_neg h1, if_neg h2, if_neg h3] at hev
      rcases commitBatch_cases st t i (tf b)
          (match failAt t i with
            | some (.duringWrite k') => some k'
            | _ => none) with hc | hc
      · simp [hc] at hev
        subst hev
        rfl
      · simp [hc] at hev
        rcases hev with rfl | rfl | hev
        · rfl
        · rfl
        · exact ih (i + 1) _ ev hev

/-- Every event emitted by `process_csv_to_db` for table `t` belongs to
`t`. -/
theorem process_events_table (failAt : FailOracle) (files : Files)
    (filepath : String) (t : String) (st : DBState) (batch_size : Nat)
    (tf : List Row → List Row) (ev : Event)
    (hev : ev ∈ (process_csv_to_db failAt files filepath t st batch_size tf).2) :
    ev.table = t := by
  unfold process_csv_to_db at hev
  cases h : lookupFile files filepath with
  | none => rw [h] at hev; simp at hev
  | some raw =>
      rw [h] at hev
      exact processBatches_events_table failAt t tf _ _ 1 st ev hev

/-- The per-table loop never touches the rows or the checkpoint of a
table outside its list. -/
theorem loadTables_frame (failAt : FailOracle) (files : Files)
    (batch_size : Nat) (plan : String → List Row → List Row) :
    ∀ (ts : List String) (st : DBState) (u : String), u ∉ ts →
    (loadTables failAt files batch_size plan st ts).1.rows u = st.rows u ∧
    (loadTables failAt files batch_size plan st ts).1.log u = st.log u := by
  intro ts
  induction ts with
  | nil => intro st u _; exact ⟨rfl, rfl⟩
  | cons t ts ih =>
      intro st u hu
      have hut : u ≠ t := fun h => hu (h ▸ List.mem_cons_self t ts)
      have huts : u ∉ ts := fun h => hu (List.mem_cons_of_mem t h)
      rw [loadTables]
      have h1 := process_frame_spec failAt files (t ++ ".csv") t st batch_size
        (plan t) u hut
      have h2 := ih (process_csv_to_db failAt files (t ++ ".csv") t st
        batch_size (plan t)).1 u huts
      exact ⟨h2.1.trans h1.1, h2.2.trans h1.2⟩

/-- Every event emitted by the per-table loop belongs to a table of its
list. -/
theorem loadTables_events_table (failAt : FailOracle) (files : Files)
    (batch_size : Nat) (plan : String → List Row → List Row) :
    ∀ (ts : List String) (st : DBState) (ev : Event),
    ev ∈ (loadTables failAt files batch_size plan st ts).2 → ev.table ∈ ts := by
  intro ts
  induction ts with
  | nil => intro st ev hev; simp [loadTables] at hev
  | cons t ts ih =>
      intro st ev hev
      rw [loadTables] at hev
      rcases List.mem_append.mp hev with h | h
      · have ht := process_events_table failAt files (t ++ ".csv") t st
          batch_size (plan t) ev h
        rw [ht]
        exact List.mem_cons_self t ts
      · exact List.mem_cons_of_mem t (ih _ ev h)

/-- When every table of the list has an existing source file, a
checkpoint within range and no injected failure, the per-table loop
brings every table's checkpoint to its total batch count. -/
theorem loadTables_complete (failAt : FailOracle) (files : Files)
    (batch_size : Nat) (plan : String → List Row → List Row) :
    ∀ (ts : List String) (st : DBState), ts.Nodup →
    (∀ u ∈ ts, ∀ m, failAt u m = none) →
    (∀ u ∈ ts, (lookupFile files (u ++ ".csv")).isSome) →
    (∀ u ∈ ts, st.log u ≤ (tableBatches files batch_size u).length) →
    ∀ u ∈ ts,
      (loadTables failAt files batch_size plan st ts).1.log u =
        (tableBatches files batch_size u).length := by
  intro ts
  induction ts with
  | nil => intro st _ _ _ _ u hu; simp at hu
  | cons t ts ih =>
      intro st hnodup hnf hpres hlog u hu
      rw [loadTables]
      rcases Option.isSome_iff_exists.mp
        (hpres t (List.mem_cons_self t ts)) with ⟨raw, hraw⟩
      have htb : tableBatches files batch_size t = readCsvBatches batch_size raw := by
        simp [tableBatches, hraw]
      have hproc := process_noFail_spec failAt files (t ++ ".csv") t st
        batch_size (plan t) raw (hnf t (List.mem_cons_self t ts)) hraw
        (by rw [← htb]; exact hlog t (List.mem_cons_self t ts))
      rcases List.mem_cons.mp hu with rfl | hu'
      · have hnotin : u ∉ ts := (List.nodup_cons.mp hnodup).1
        have hframe := loadTables_frame failAt files batch_size plan ts
          (process_csv_to_db failAt files (u ++ ".csv") u st batch_size (plan u)).1
          u hnotin
        rw [hframe.2, hproc]
        simp [htb]
      · refine ih _ (List.nodup_cons.mp hnodup).2
          (fun v hv m => hnf v (List.mem_cons_of_mem t hv) m)
          (fun v hv => hpres v (List.mem_cons_of_mem t hv))
          (fun v hv => ?_) u hu'
        by_cases hvt : v = t
        · subst hvt
          rw [hproc]
          simp [htb]
        · rw [(process_frame_spec failAt files (t ++ ".csv") t st batch_size
            (plan t) v hvt).2]
          exact hlog v (List.mem_cons_of_mem t hv)

/-- C1: committing a transformed batch appends the batch's rows to the
destination table and records the new checkpoint in one indivisible
unit; if the transaction fails at any of its statements, neither the
stored rows nor the checkpoint of any table is changed from before the
attempt. -/
theorem C1_atomic_commit (st : DBState) (t : String) (i : Nat)
    (batch : List Row) (failIdx : Option Nat) :
    (failIdx = none →
      (commitBatch st t i batch failIdx).2 = true ∧
      (commitBatch st t i batch failIdx).1.rows t = st.rows t ++ batch ∧
      (commitBatch st t i batch failIdx).1.log t = i ∧
      (∀ u, u ≠ t →
        (commitBatch st t i batch failIdx).1.rows u = st.rows u ∧
        (commitBatch st t i batch failIdx).1.log u = st.log u)) ∧
    (∀ k, failIdx = some k → k < (commitOps t i batch).length →
      (commitBatch st t i batch failIdx).2 = false ∧
      (∀ u,
        (commitBatch st t i batch failIdx).1.rows u = st.rows u ∧
        (commitBatch st t i batch failIdx).1.log u = st.log u)) := by
  constructor
  · rintro rfl
    rw [commitBatch_none]
    refine ⟨rfl, by simp, by simp, fun u hu => ⟨by simp [hu], by simp [hu]⟩⟩
  · rintro k rfl hk
    rw [commitBatch_fail st t i batch k (by simpa [commitOps] using hk)]
    exact ⟨rfl, fun u => ⟨rfl, rfl⟩⟩

/-- Witness for C1 at a concrete commit attempt failing during the data
write. -/
theorem C1_atomic_commit_witness :
    (commitBatch st0 "courses" 1 [[some "AAA"]] (some 0)).2 = false ∧
    (commitBatch st0 "courses" 1 [[some "AAA"]] (some 0)).1.rows "courses" =
      st0.rows "courses" ∧
    (commitBatch st0 "courses" 1 [[some "AAA"]] (some 0)).1.log "courses" =
      st0.log "courses" := by
  have h := (C1_atomic_commit st0 "courses" 1 [[some "AAA"]] (some 0)).2
    0 rfl (by decide)
  exact ⟨h.1, (h.2 "courses").1, (h.2 "courses").2⟩

/-- C10: when the source file path does not exist, `process_csv_to_db`
returns at once: no exception, no event, and a database state identical
to the one it was given (in particular the table's checkpoint and rows
are untouched, and the result does not depend on them). -/
theorem C10_missing_file (failAt : FailOracle) (files : Files)
    (filepath : String) (tableName : String) (st : DBState)
    (batch_size : Nat) (transform_func : List Row → List Row)
    (h : lookupFile files filepath = none) :
    process_csv_to_db failAt files filepath tableName st batch_size
      transform_func = (st, []) := by
  simp [process_csv_to_db, h]

/-- Witness for C10 on an empty data source. -/
theorem C10_missing_file_witness :
    process_csv_to_db noFail [] "studentInfo.csv" "studentInfo" st0 10
      transform_generic = (st0, []) :=
  C10_missing_file noFail [] "studentInfo.csv" "studentInfo" st0 10
    transform_generic rfl

/-- C2: when the stored checkpoint of a table records `k` committed
batches out of `n` (`k ≤ n`), re-invoking the table load with no
failure emits no transform or commit for any batch of index ≤ `k` and
transforms then commits exactly batches `k+1 .. n`, in order; in
particular with `k = n` it commits zero batches.  Only the target
table's rows and checkpoint change. -/
theorem C2_resume_from_checkpoint (failAt : FailOracle) (files : Files)
    (filepath : String) (t : String) (st : DBState) (batch_size : Nat)
    (tf : List Row → List Row) (raw : List RawRow) (k : Nat)
    (hnf : ∀ j, failAt t j = none)
    (hfile : lookupFile files filepath = some raw)
    (hlog : st.log t = k)
    (hk : k ≤ (readCsvBatches batch_size raw).length) :
    (process_csv_to_db failAt files filepath t st batch_size tf).2 =
      (List.range' (k + 1) ((readCsvBatches batch_size raw).length - k)).flatMap
        (fun j => [.transformed t j, .committed t j]) ∧
    (process_csv_to_db failAt files filepath t st batch_size tf).1.rows t =
      st.rows t ++ (((readCsvBatches batch_size raw).drop k).map tf).flatten ∧
    (process_csv_to_db failAt files filepath t st batch_size tf).1.log t =
      (readCsvBatches batch_size raw).length ∧
    (∀ u, u ≠ t →
      (process_csv_to_db failAt files filepath t st batch_size tf).1.rows u =
        st.rows u ∧
      (process_csv_to_db failAt files filepath t st batch_size tf).1.log u =
        st.log u) := by
  rw [process_noFail_spec failAt files filepath t st batch_size tf raw hnf
    hfile (hlog ▸ hk)]
  rw [hlog]
  refine ⟨rfl, by simp, by simp, fun u hu => ⟨by simp [hu], by simp [hu]⟩⟩

/-- Witness for C2: with checkpoint 1 out of 3 one-row batches, the
re-invocation commits exactly batches 2 and 3. -/
theorem C2_resume_from_checkpoint_witness :
    (process_csv_to_db noFail [("vle.csv", rawW)] "vle.csv" "vle" stW 1
        transform_generic).2 =
      (List.range' (1 + 1) ((readCsvBatches 1 rawW).length - 1)).flatMap
        (fun j => [.transformed "vle" j, .committed "vle" j]) ∧
    (process_csv_to_db noFail [("vle.csv", rawW)] "vle.csv" "vle" stW 1
        transform_generic).1.rows "vle" =
      stW.rows "vle" ++
        (((readCsvBatches 1 rawW).drop 1).map transform_generic).flatten ∧
    (process_csv_to_db noFail [("vle.csv", rawW)] "vle.csv" "vle" stW 1
        transform_generic).1.log "vle" = (readCsvBatches 1 rawW).length ∧
    (∀ u, u ≠ "vle" →
      (process_csv_to_db noFail [("vle.csv", rawW)] "vle.csv" "vle" stW 1
          transform_generic).1.rows u = stW.rows u ∧
      (process_csv_to_db noFail [("vle.csv", rawW)] "vle.csv" "vle" stW 1
          transform_generic).1.log u = stW.log u) :=
  C2_resume_from_checkpoint noFail [("vle.csv", rawW)] "vle.csv" "vle" stW 1
    transform_generic rawW 1 (fun _ => rfl) (by decide) (by decide) (by decide)

/-- C3: the score-classification transform maps each row to the same
row with `assessment_result` set to `"Fail"` when the score is present
and strictly below 40, `"Pass"` when it is present and ≥ 40, and `none`
when the score is missing; the score itself and every other original
column are unchanged. -/
theorem C3_score_classification (df : List StudentAssessmentRow) (i : Nat)
    (r : StudentAssessmentRow) (h : df[i]? = some r) :
    ∃ r', (transform_student_assessment df)[i]? = some r' ∧
      r'.score = r.score ∧
      r'.id_assessment = r.id_assessment ∧
      r'.id_student = r.id_student ∧
      r'.date_submitted = r.date_submitted ∧
      r'.is_banked = r.is_banked ∧
      (r.score = none → r'.assessment_result = none) ∧
      (∀ s : ℚ, r.score = some s → s < 40 →
        r'.assessment_result = some "Fail") ∧
      (∀ s : ℚ, r.score = some s → 40 ≤ s →
        r'.assessment_result = some "Pass") := by
  refine ⟨{ r with assessment_result := classify_score r.score }, ?_, rfl,
    rfl, rfl, rfl, rfl, ?_, ?_, ?_⟩
  · simp [transform_student_assessment, h]
  · intro hs
    simp [classify_score, hs]
  · intro s hs hlt
    simp [classify_score, hs, not_le.mpr hlt]
  · intro s hs hge
    simp [classify_score, hs, hge]

/-- Witness for C3 at a single-row batch with score 39.9. -/
theorem C3_score_classification_witness :
    ∃ r', (transform_student_assessment [saRow0])[0]? = some r' ∧
      r'.score = saRow0.score ∧
      r'.id_assessment = saRow0.id_assessment ∧
      r'.id_student = saRow0.id_student ∧
      r'.date_submitted = saRow0.date_submitted ∧
      r'.is_banked = saRow0.is_banked ∧
      (saRow0.score = none → r'.assessment_result = none) ∧
      (∀ s : ℚ, saRow0.score = some s → s < 40 →
        r'.assessment_result = some "Fail") ∧
      (∀ s : ℚ, saRow0.score = some s → 40 ≤ s →
        r'.assessment_result = some "Pass") :=
  C3_score_classification [saRow0] 0 saRow0 rfl

/-- Cutting a list into chunks loses and reorders nothing. -/
theorem flatten_chunksOf (n : Nat) : (l : List α) → (chunksOf n l).flatten = l
  | [] => by simp [chunksOf, chunksOfFuel]
  | x :: xs => by
      rw [chunksOf_cons, List.flatten_cons,
        flatten_chunksOf n (xs.drop (n - 1))]
      simp [List.take_append_drop]
termination_by l => l.length
decreasing_by simp [List.length_drop]; omega

/-- Every record of every chunk comes from the input record list. -/
theorem mem_of_mem_chunksOf {n : Nat} {l c : List α} (hc : c ∈ chunksOf n l)
    {x : α} (hx : x ∈ c) : x ∈ l := by
  rw [← flatten_chunksOf n l]
  exact List.mem_flatten.mpr ⟨c, hc, hx⟩

/-- C5: every record delivered by the chunked source reader is the
`na_values`-parse of a source record, and parsing turns exactly the
missing-value tokens `"?"` and `""` into the missing sentinel `none`;
consequently no delivered field ever holds either literal token. -/
theorem C5_missing_value_normalization (batch_size : Nat)
    (raw : List RawRow) :
    (∀ b ∈ readCsvBatches batch_size raw, ∀ r ∈ b,
      ∃ rr ∈ raw, r = parseRow rr) ∧
    parseCell "?" = none ∧
    parseCell "" = none ∧
    (∀ s, s ∉ missing_values → parseCell s = some s) ∧
    (∀ b ∈ readCsvBatches batch_size raw, ∀ r ∈ b, ∀ c ∈ r,
      c ≠ some "?" ∧ c ≠ some "") := by
  have hmem : ∀ b ∈ readCsvBatches batch_size raw, ∀ r ∈ b,
      ∃ rr ∈ raw, r = parseRow rr := by
    intro b hb r hr
    have : r ∈ raw.map parseRow := mem_of_mem_chunksOf hb hr
    rcases List.mem_map.mp this with ⟨rr, hrr, heq⟩
    exact ⟨rr, hrr, heq.symm⟩
  refine ⟨hmem, rfl, rfl, fun s hs => by simp [parseCell, hs], ?_⟩
  intro b hb r hr c hc
  rcases hmem b hb r hr with ⟨rr, _, rfl⟩
  rcases List.mem_map.mp hc with ⟨s, _, rfl⟩
  by_cases h : s ∈ missing_values
  · simp [parseCell, h]
  · simp only [missing_values, List.mem_cons, List.not_mem_nil, or_false] at h
    push_neg at h
    simp [parseCell, missing_values, h.1, h.2]

/-- Witness for C5 on a file containing both missing-value tokens. -/
theorem C5_missing_value_normalization_witness :
    ((1 : Nat) ≤ 1 ∧ parseCell "?" = none ∧ parseCell "" = none) ∧
    (some "11391" ≠ some "?" ∧ some "11391" ≠ some "") := by
  have h := C5_missing_value_normalization 1 rawNA
  refine ⟨⟨le_rfl, h.2.1, h.2.2.1⟩, ?_⟩
  exact h.2.2.2.2 [[none, none, some "11391"]] (by decide)
    [none, none, some "11391"] (by decide) (some "11391") (by decide)

/-- Under pairwise-distinct course keys, filtering on a row's key gives
exactly the (at most one) course `find?` locates. -/
theorem filter_keyMatch_of_nodup (courses_df : List Course)
    (r : AssessmentRow) (h : coursesNodupKeys courses_df) :
    courses_df.filter (courseKeyMatch r) =
      (match courses_df.find? (courseKeyMatch r) with
        | none => []
        | some c => [c]) := by
  induction courses_df with
  | nil => rfl
  | cons c cs ih =>
      rcases List.pairwise_cons.mp h with ⟨hc, hcs⟩
      by_cases hm : courseKeyMatch r c
      · rw [List.filter_cons_of_pos hm, List.find?_cons_of_pos _ hm]
        have hnil : cs.filter (courseKeyMatch r) = [] := by
          rw [List.filter_eq_nil_iff]
          intro a ha hpa
          simp only [courseKeyMatch, decide_eq_true_eq] at hm hpa
          exact hc a ha ⟨hm.1.trans hpa.1.symm, hm.2.trans hpa.2.symm⟩
        rw [hnil]
      · rw [List.filter_cons_of_neg hm, List.find?_cons_of_neg _ hm]
        exact ih hcs

/-- With pairwise-distinct course keys, merging one row and applying the
imputation is the single-row lookup rule. -/
theorem mergeCourses_rule (courses_df : List Course)
    (huniq : coursesNodupKeys courses_df) (r : AssessmentRow) :
    (mergeCourses courses_df r).map (fun p =>
        if p.1.assessment_type = some "Exam" ∧ p.1.date = none then
          { p.1 with date := p.2 }
        else p.1) =
      [match courses_df.find? (courseKeyMatch r) with
        | none => r
        | some c =>
            if r.assessment_type = some "Exam" ∧ r.date = none then
              { r with date := c.module_presentation_length }
            else r] := by
  rw [mergeCourses, filter_keyMatch_of_nodup courses_df r huniq]
  cases hf : courses_df.find? (courseKeyMatch r) with
  | none =>
      by_cases hcond : r.assessment_type = some "Exam" ∧ r.date = none
      · have hdate : r.date = none := hcond.2
        cases r
        simp_all
      · simp [hcond]
  | some c => simp

/-- C4: with pairwise-distinct course keys, the assessment transform is
exactly the per-row rule: a row whose `(module, presentation)` key
matches a course gets its missing date replaced by that course's length
exactly when its type is `"Exam"` and its date is missing; rows with no
matching course and non-exam rows are returned unmodified; the output
has the input's columns (both sides are batches of `AssessmentRow`). -/
theorem C4_exam_date_imputation (df : List AssessmentRow)
    (courses_df : List Course) (huniq : coursesNodupKeys courses_df) :
    transform_assessments df courses_df = df.map fun r =>
      match courses_df.find? (courseKeyMatch r) with
      | none => r
      | some c =>
          if r.assessment_type = some "Exam" ∧ r.date = none then
            { r with date := c.module_presentation_length }
          else r := by
  unfold transform_assessments
  induction df with
  | nil => rfl
  | cons r df ih =>
      rw [List.flatMap_cons, List.map_append, ih, List.map_cons,
        mergeCourses_rule courses_df huniq r]
      rfl

/-- Witness for C4: the exam row's missing date becomes the course
length 269; the non-exam row is left with its missing date. -/
theorem C4_exam_date_imputation_witness :
    transform_assessments [examRowW, tmaRowW] [courseW] =
      [{ examRowW with date := some 269 }, tmaRowW] := by
  rw [C4_exam_date_imputation [examRowW, tmaRowW] [courseW]
    (by simp [coursesNodupKeys])]
  decide

/-- Counterexample to C6 as stated: with the reset flag set and the
anchor `courses.csv` absent, `run_full_etl` aborts before loading any
table (no events), yet writes do occur — the destructive clear has
already emptied `studentInfo`'s rows and checkpoint. -/
theorem C6_counterexample :
    (run_full_etl noFail fsC6 stC6 10 true (fun _ => id)).2 = [] ∧
    (run_full_etl noFail fsC6 stC6 10 true (fun _ => id)).1.rows
        "studentInfo" ≠ stC6.rows "studentInfo" ∧
    (run_full_etl noFail fsC6 stC6 10 true (fun _ => id)).1.log
        "studentInfo" ≠ stC6.log "studentInfo" := by
  refine ⟨rfl, ?_, ?_⟩ <;> decide

/-- C6 (amended): if the source directory is missing, `run_full_etl`
aborts with the database untouched; if the anchor `courses.csv` is
absent, it aborts before loading any table (empty event trace) with no
write beyond the explicitly requested reset — the state is exactly the
input state when the reset flag is clear, and exactly the cleared state
when the reset flag is set (the destructive clear runs before the
courses check).  A source without `courses.csv` also fails the
caller-side `validate_data_source` check, so the menu flow never hands
it to `run_full_etl`. -/
theorem C6_abort_before_load (failAt : FailOracle) (fs : FileSystem)
    (st : DBState) (batch_size : Nat) (clear_existing_data : Bool)
    (plan : String → List Row → List Row) :
    (fs.dirExists = false →
      run_full_etl failAt fs st batch_size clear_existing_data plan =
        (st, [])) ∧
    (fs.dirExists = true → lookupFile fs.files "courses.csv" = none →
      run_full_etl failAt fs st batch_size clear_existing_data plan =
        ((if clear_existing_data then clear_data_tables st else st), [])) ∧
    (lookupFile fs.files "courses.csv" = none →
      validate_data_source fs = false) := by
  refine ⟨?_, ?_, ?_⟩
  · intro h
    simp [run_full_etl, summary_is_valid, h]
  · intro h hcourses
    simp [run_full_etl, summary_is_valid, h, hcourses]
  · intro hcourses
    simp [validate_data_source, essential_files, hcourses]

/-- Witness for C6 (amended) at the concrete counterexample source. -/
theorem C6_abort_before_load_witness :
    run_full_etl noFail fsC6 stC6 10 true (fun _ => id) =
      ((if true then clear_data_tables stC6 else stC6), []) ∧
    validate_data_source fsC6 = false := by
  have h := C6_abort_before_load noFail fsC6 stC6 10 true (fun _ => id)
  exact ⟨h.2.1 rfl rfl, h.2.2 rfl⟩

/-- C7: when the failure oracle makes table `t` raise at batch `j` (its
first failure, past the checkpoint) and leaves every other table alone,
the run loses only `t`'s remaining batches: the loop returns with `t`'s
committed prefix (batches up to `j - 1`) and checkpoint `j - 1` in
place, and every other table of the run is still loaded to
completion. -/
theorem C7_per_table_failure_containment (failAt : FailOracle)
    (files : Files) (batch_size : Nat)
    (plan : String → List Row → List Row) (t : String) (j : Nat)
    (f : BatchFailure)
    (hother : ∀ u, u ≠ t → ∀ m, failAt u m = none)
    (hfj : failAt t j = some f) (heff : f.effective)
    (hbefore : ∀ m, m < j → failAt t m = none)
    (hjle : j ≤ (tableBatches files batch_size t).length) :
    ∀ (ts : List String) (st : DBState), t ∈ ts → ts.Nodup →
    (∀ u ∈ ts, (lookupFile files (u ++ ".csv")).isSome) →
    (∀ u ∈ ts, st.log u ≤ (tableBatches files batch_size u).length) →
    st.log t < j →
    (loadTables failAt files batch_size plan st ts).1.log t = j - 1 ∧
    (loadTables failAt files batch_size plan st ts).1.rows t =
      st.rows t ++
        ((((tableBatches files batch_size t).drop (st.log t)).take
            (j - 1 - st.log t)).map (plan t)).flatten ∧
    (∀ u ∈ ts, u ≠ t →
      (loadTables failAt files batch_size plan st ts).1.log u =
        (tableBatches files batch_size u).length) := by
  intro ts
  induction ts with
  | nil => intro st hmem; simp at hmem
  | cons v ts ih =>
      intro st hmem hnodup hpres hlog hklt
      by_cases hvt : v = t
      · subst hvt
        rcases Option.isSome_iff_exists.mp
          (hpres v (List.mem_cons_self v ts)) with ⟨raw, hraw⟩
        have htb : tableBatches files batch_size v =
            readCsvBatches batch_size raw := by
          simp [tableBatches, hraw]
        have hfs := process_fail_spec failAt files (v ++ ".csv") v st
          batch_size (plan v) raw j f hraw hfj heff hbefore hklt
          (htb ▸ hjle)
        have hnotin : v ∉ ts := (List.nodup_cons.mp hnodup).1
        have hframe := loadTables_frame failAt files batch_size plan ts
          (process_csv_to_db failAt files (v ++ ".csv") v st batch_size
            (plan v)).1 v hnotin
        have hlogts : ∀ w ∈ ts,
            (process_csv_to_db failAt files (v ++ ".csv") v st batch_size
              (plan v)).1.log w ≤ (tableBatches files batch_size w).length := by
          intro w hw
          have hwv : w ≠ v := fun h => hnotin (h ▸ hw)
          rw [hfs]
          simpa [hwv] using hlog w (List.mem_cons_of_mem _ hw)
        refine ⟨?_, ?_, ?_⟩
        · refine hframe.2.trans ?_
          rw [hfs]
          simp
        · refine hframe.1.trans ?_
          rw [hfs]
          simp [htb]
        · intro u hu hut
          have hu' : u ∈ ts := by
            rcases List.mem_cons.mp hu with h | h
            · exact absurd h hut
            · exact h
          exact loadTables_complete failAt files batch_size plan ts _
            (List.nodup_cons.mp hnodup).2
            (fun w hw m => hother w (fun h => hnotin (h ▸ hw)) m)
            (fun w hw => hpres w (List.mem_cons_of_mem _ hw))
            hlogts u hu'
      · have htmem : t ∈ ts := by
          rcases List.mem_cons.mp hmem with h | h
          · exact absurd h.symm hvt
          · exact h
        rcases Option.isSome_iff_exists.mp
          (hpres v (List.mem_cons_self v ts)) with ⟨rawv, hrawv⟩
        have htbv : tableBatches files batch_size v =
            readCsvBatches batch_size rawv := by
          simp [tableBatches, hrawv]
        have hsp := process_noFail_spec failAt files (v ++ ".csv") v st
          batch_size (plan v) rawv (hother v hvt) hrawv
          (htbv ▸ hlog v (List.mem_cons_self v ts))
        have hvnotin : v ∉ ts := (List.nodup_cons.mp hnodup).1
        have htv : ¬ t = v := fun h => hvt h.symm
        have h1 : (process_csv_to_db failAt files (v ++ ".csv") v st
            batch_size (plan v)).1.log t = st.log t := by
          rw [hsp]; simp [htv]
        have h2 : (process_csv_to_db failAt files (v ++ ".csv") v st
            batch_size (plan v)).1.rows t = st.rows t := by
          rw [hsp]; simp [htv]
        have h3 : ∀ w ∈ ts,
            (process_csv_to_db failAt files (v ++ ".csv") v st batch_size
              (plan v)).1.log w ≤ (tableBatches files batch_size w).length := by
          intro w hw
          by_cases hwv : w = v
          · subst hwv
            rw [hsp]
            simp [htbv]
          · rw [hsp]
            simpa [hwv] using hlog w (List.mem_cons_of_mem _ hw)
        have IH := ih (process_csv_to_db failAt files (v ++ ".csv") v st
            batch_size (plan v)).1 htmem (List.nodup_cons.mp hnodup).2
          (fun w hw => hpres w (List.mem_cons_of_mem _ hw)) h3
          (h1 ▸ hklt)
        rw [h1, h2] at IH
        refine ⟨IH.1, IH.2.1, ?_⟩
        intro u hu hut
        rcases List.mem_cons.mp hu with rfl | hu'
        · have hfr := loadTables_frame failAt files batch_size plan ts
            (process_csv_to_db failAt files (u ++ ".csv") u st batch_size
              (plan u)).1 u hvnotin
          refine hfr.2.trans ?_
          rw [hsp]
          simp [htbv]
        · exact IH.2.2 u hu' hut

/-- Witness for C7: `vle` keeps its first committed batch and checkpoint
1, while `courses` is still loaded to completion. -/
theorem C7_per_table_failure_containment_witness :
    (loadTables failC7 files7 1 (fun _ => id) st0 ["courses", "vle"]).1.log
        "vle" = 2 - 1 ∧
    (loadTables failC7 files7 1 (fun _ => id) st0 ["courses", "vle"]).1.rows
        "vle" =
      st0.rows "vle" ++
        ((((tableBatches files7 1 "vle").drop (st0.log "vle")).take
            (2 - 1 - st0.log "vle")).map ((fun _ => id) "vle")).flatten ∧
    (∀ u ∈ ["courses", "vle"], u ≠ "vle" →
      (loadTables failC7 files7 1 (fun _ => id) st0 ["courses", "vle"]).1.log
          u = (tableBatches files7 1 u).length) :=
  C7_per_table_failure_containment failC7 files7 1 (fun _ => id) "vle" 2
    (.duringWrite 0)
    (fun u hu m => by simp [failC7, hu])
    (by decide)
    (by simp [BatchFailure.effective])
    (fun m hm => by simp [failC7]; omega)
    (by decide)
    ["courses", "vle"] st0 (by decide) (by decide) (by decide) (by decide)
    (by decide)

/-- An indexed element of a list is a member of it. -/
theorem mem_of_some_getElem {α : Type} {l : List α} {i : Nat} {a : α}
    (h : l[i]? = some a) : a ∈ l := by
  rcases List.getElem?_eq_some_iff.mp h with ⟨hlen, hget⟩
  exact hget ▸ List.getElem_mem hlen

/-- In the trace of the per-table loop over a duplicate-free table list,
every event of an earlier table precedes every event of a later
table. -/
theorem loadTables_table_order (failAt : FailOracle) (files : Files)
    (batch_size : Nat) (plan : String → List Row → List Row) :
    ∀ (ts : List String), ts.Nodup →
    ∀ (st : DBState) (a b : String) (ia ib : Nat), ia < ib →
      ts[ia]? = some a → ts[ib]? = some b →
    ∀ (i j : Nat) (ev1 ev2 : Event),
      (loadTables failAt files batch_size plan st ts).2[i]? = some ev1 →
      (loadTables failAt files batch_size plan st ts).2[j]? = some ev2 →
      ev1.table = a → ev2.table = b → i < j := by
  intro ts
  induction ts with
  | nil => intro _ st a b ia ib _ hga; simp at hga
  | cons v ts ih =>
      intro hnodup st a b ia ib hab hga hgb i j ev1 ev2 h1 h2 ht1 ht2
      have hvnotin : v ∉ ts := (List.nodup_cons.mp hnodup).1
      have htr : (loadTables failAt files batch_size plan st (v :: ts)).2 =
          (process_csv_to_db failAt files (v ++ ".csv") v st batch_size
            (plan v)).2 ++
          (loadTables failAt files batch_size plan
            (process_csv_to_db failAt files (v ++ ".csv") v st batch_size
              (plan v)).1 ts).2 := rfl
      rw [htr] at h1 h2
      obtain ⟨ib', rfl⟩ : ∃ ic, ib = ic + 1 := ⟨ib - 1, by omega⟩
      rw [List.getElem?_cons_succ] at hgb
      have hbmem : b ∈ ts := mem_of_some_getElem hgb
      have hbv : b ≠ v := fun h => hvnotin (h ▸ hbmem)
      have hjge : (process_csv_to_db failAt files (v ++ ".csv") v st
          batch_size (plan v)).2.length ≤ j := by
        by_contra hlt
        push_neg at hlt
        rw [List.getElem?_append_left hlt] at h2
        have hv := process_events_table failAt files (v ++ ".csv") v st
          batch_size (plan v) ev2 (mem_of_some_getElem h2)
        exact hbv (ht2.symm.trans hv)
      cases ia with
      | zero =>
          rw [List.getElem?_cons_zero] at hga
          have hav : v = a := by simpa using hga
          have hilt : i < (process_csv_to_db failAt files (v ++ ".csv") v st
              batch_size (plan v)).2.length := by
            by_contra hge
            push_neg at hge
            rw [List.getElem?_append_right hge] at h1
            have hmem := loadTables_events_table failAt files batch_size plan
              ts _ ev1 (mem_of_some_getElem h1)
            rw [ht1, ← hav] at hmem
            exact hvnotin hmem
          omega
      | succ ia' =>
          rw [List.getElem?_cons_succ] at hga
          have hamem : a ∈ ts := mem_of_some_getElem hga
          have hav : a ≠ v := fun h => hvnotin (h ▸ hamem)
          have hige : (process_csv_to_db failAt files (v ++ ".csv") v st
              batch_size (plan v)).2.length ≤ i := by
            by_contra hlt
            push_neg at hlt
            rw [List.getElem?_append_left hlt] at h1
            have hv := process_events_table failAt files (v ++ ".csv") v st
              batch_size (plan v) ev1 (mem_of_some_getElem h1)
            exact hav (ht1.symm.trans hv)
          rw [List.getElem?_append_right hige] at h1
          rw [List.getElem?_append_right hjge] at h2
          have hih := ih (List.nodup_cons.mp hnodup).2 _ a b ia' ib'
            (by omega) hga hgb _ _ ev1 ev2 h1 h2 ht1 ht2
          omega

/-- C8: over a source containing every table, the run processes tables
in the fixed execution order, which respects the foreign-key references;
hence in the committed trace no event of a detail table ever precedes an
event of an entity table it references — every row of the referenced
table is committed before any row of the referencing table. -/
theorem C8_dependency_order (failAt : FailOracle) (fs : FileSystem)
    (st : DBState) (batch_size : Nat) (clear_existing_data : Bool)
    (plan : String → List Row → List Row)
    (hdir : fs.dirExists = true)
    (hall : ∀ t ∈ execution_order, (lookupFile fs.files (t ++ ".csv")).isSome)
    (d e : String) (hd : d ∈ execution_order) (he : e ∈ fk_references d) :
    ∀ (i j : Nat) (ev1 ev2 : Event),
      (run_full_etl failAt fs st batch_size clear_existing_data
        plan).2[i]? = some ev1 →
      (run_full_etl failAt fs st batch_size clear_existing_data
        plan).2[j]? = some ev2 →
      ev1.table = e → ev2.table = d → i < j := by
  intro i j ev1 ev2 h1 h2 ht1 ht2
  rcases Option.isSome_iff_exists.mp
    (hall "courses" (by decide)) with ⟨raw, hraw⟩
  have hraw2 : lookupFile fs.files "courses.csv" = some raw := hraw
  have hrun : (run_full_etl failAt fs st batch_size clear_existing_data
      plan).2 =
      (loadTables failAt fs.files batch_size plan
        (if clear_existing_data then clear_data_tables st else st)
        (execution_order.filter fun t =>
          (lookupFile fs.files (t ++ ".csv")).isSome)).2 := by
    simp [run_full_etl, summary_is_valid, hdir, hraw2]
  have hfilter : execution_order.filter
      (fun t => (lookupFile fs.files (t ++ ".csv")).isSome) =
      execution_order := List.filter_eq_self.mpr hall
  rw [hrun, hfilter] at h1 h2
  have hfact : ∀ x ∈ execution_order, ∀ y ∈ fk_references x,
      execution_order.indexOf y < execution_order.indexOf x ∧
      y ∈ execution_order := by decide
  have hkey := hfact d hd e he
  have hed : execution_order.indexOf d < execution_order.length :=
    List.indexOf_lt_length.mpr hd
  have hee : execution_order.indexOf e < execution_order.length :=
    List.indexOf_lt_length.mpr hkey.2
  exact loadTables_table_order failAt fs.files batch_size plan
    execution_order (by decide) _ e d
    (execution_order.indexOf e) (execution_order.indexOf d) hkey.1
    (List.getElem?_eq_some_iff.mpr ⟨hee, List.getElem_indexOf hee⟩)
    (List.getElem?_eq_some_iff.mpr ⟨hed, List.getElem_indexOf hed⟩)
    i j ev1 ev2 h1 h2 ht1 ht2

/-- Witness for C8: in the concrete all-tables run, the first `courses`
commit (position 0) precedes the first `assessments` event
(position 8). -/
theorem C8_dependency_order_witness : (0 : Nat) < 8 :=
  C8_dependency_order noFail fsAll st0 1 false (fun _ => id) rfl
    (by decide) "assessments" "courses" (by decide) (by decide)
    0 8 (.transformed "courses" 1) (.transformed "assessments" 1)
    (by decide) (by decide) rfl rfl

/-- C9 evaluated at the failing input: loading source A then source B
with `run_multi_source_etl` leaves the destination containing only A's
rows.  The checkpoints written while loading A survive into B's run, so
every batch of B whose index is within A's committed range is skipped —
B commits no batch at all (the trace shows only A's four events) and
B's `studentInfo` row never reaches the destination, contradicting the
claimed union semantics. -/
theorem C9_checkpoint_carryover_bug :
    (run_multi_source_etl noFail [srcA, srcB] st0 10
        (fun _ => id)).1.rows "studentInfo" = [parseRow ["11391", "AAA"]] ∧
    parseRow ["99999", "BBB"] ∉
      (run_multi_source_etl noFail [srcA, srcB] st0 10
        (fun _ => id)).1.rows "studentInfo" ∧
    (run_multi_source_etl noFail [srcA, srcB] st0 10 (fun _ => id)).2 =
      [.transformed "courses" 1, .committed "courses" 1,
       .transformed "studentInfo" 1, .committed "studentInfo" 1] := by
  refine ⟨?_, ?_, ?_⟩ <;> decide

end ETL
